import Mathlib

/-!
Verification development for the sheet-ingestion engine of the
Arizona-Roofers-Scheduler repository.

The definitions below are a shallow embedding of the TypeScript source
(`services/…`, the file holding `fetchWithRetry`, `findSheetNameForDate`,
`normalizeName`, `fetchSalesRankings`, `fetchRepSkills` and `fetchSheetData`).
JavaScript strings are modeled as Lean `String` values restricted to the
ASCII case-mapping (`Char.toLower`/`Char.toUpper`), `Map`/`Record`/`Set`
objects are modeled as insertion-ordered association lists, and the
asynchronous fetches are modeled by passing their outcomes in explicitly.
External configuration (`TIME_SLOTS`, `SHEET_TITLE_PREFIX`) is passed as a
parameter, since the constants module is outside the engine source.
-/

set_option autoImplicit false

namespace Scheduler

/-- Characters matched by the JavaScript regex class `\s` (whitespace). -/
def jsWhitespace (c : Char) : Bool :=
  c = ' ' || c = '\t' || c = '\n' || c = '\r' ||
  c.toNat = 0xb || c.toNat = 0xc || c.toNat = 0xa0 || c.toNat = 0x1680 ||
  (0x2000 ≤ c.toNat && c.toNat ≤ 0x200a) ||
  c.toNat = 0x2028 || c.toNat = 0x2029 || c.toNat = 0x202f ||
  c.toNat = 0x205f || c.toNat = 0x3000 || c.toNat = 0xfeff

/-- JavaScript `String.prototype.trim`: strip leading and trailing whitespace. -/
def jsTrim (s : String) : String :=
  String.mk (((s.toList.dropWhile jsWhitespace).reverse.dropWhile jsWhitespace).reverse)

/-- JavaScript `toLowerCase`, restricted to the ASCII case mapping. -/
def jsToLower (s : String) : String :=
  String.mk (s.toList.map Char.toLower)

/-- JavaScript `toUpperCase`, restricted to the ASCII case mapping. -/
def jsToUpper (s : String) : String :=
  String.mk (s.toList.map Char.toUpper)

/-- `p` is an initial segment of `l` (used for `String.prototype.startsWith`). -/
def listIsInit : List Char → List Char → Bool
  | [], _ => true
  | _ :: _, [] => false
  | a :: ps, b :: ls => a = b && listIsInit ps ls

/-- `needle` occurs as a contiguous substring of the second list
(used for `String.prototype.includes`). -/
def listHasSub (needle : List Char) : List Char → Bool
  | [] => needle.isEmpty
  | b :: t => listIsInit needle (b :: t) || listHasSub needle t

/-- JavaScript `s.startsWith(p)`. -/
def strStartsWith (s p : String) : Bool :=
  listIsInit p.toList s.toList

/-- A spreadsheet cell as delivered by the values API: a string, a boolean,
or absent (`null`/`undefined`/out of range). -/
inductive CellValue where
  | vStr (s : String)
  | vBool (b : Bool)
  | vNone
deriving DecidableEq, Repr

/-- `String(row?.[0] || '')` (line 267): boolean `false` and absent cells are
falsy, so they collapse to the empty string before conversion. -/
def cellFirstCol : CellValue → String
  | .vStr s => s
  | .vBool true => "true"
  | .vBool false => ""
  | .vNone => ""

/-- `String(availabilityMark ?? '')` (line 312): only `null`/`undefined` are
replaced by `''`; booleans are converted to their string form. -/
def cellAvailStr : CellValue → String
  | .vStr s => s
  | .vBool true => "true"
  | .vBool false => "false"
  | .vNone => ""

/-- JavaScript truthiness of a cell value. -/
def cellTruthy : CellValue → Bool
  | .vStr s => s ≠ ""
  | .vBool b => b
  | .vNone => false

/-- `String(cell)` for a (truthy) header cell (line 247). -/
def cellHeaderStr : CellValue → String
  | .vStr s => s
  | .vBool true => "true"
  | .vBool false => "false"
  | .vNone => "undefined"

/-! ### The time-slot label matcher (lines 280-284)

`new RegExp(label.replace(/(\s-\s)/, '\\s?-\\s?') + '$', 'i')`: the first
occurrence of whitespace-dash-whitespace in the (trimmed, lowercased) label
is made flexible — one optional whitespace character on each side of the
dash — and the resulting pattern is matched case-insensitively, anchored at
the end of the string.  Labels are plain text (no other regex
metacharacters), so the pattern is literal outside the dash. -/

/-- Split a label at the first whitespace-dash-whitespace occurrence
(the regex `(\s-\s)` replaced in `label.replace`), if any. -/
def splitDash : List Char → Option (List Char × List Char)
  | [] => none
  | a :: rest =>
    match rest with
    | b :: c :: rest2 =>
      if jsWhitespace a && b = '-' && jsWhitespace c then some ([], rest2)
      else
        match splitDash rest with
        | some (p, q) => some (a :: p, q)
        | none => none
    | _ => none

/-- The compiled shape of a slot-label regex: literal text before the dash,
and (when the label contains a whitespace-dash-whitespace group) the literal
text after it. -/
structure SlotPat where
  pre : List Char
  post : Option (List Char)
deriving DecidableEq, Repr

/-- Compile a (trimmed, lowercased) slot label to its pattern. -/
def mkSlotPat (label : String) : SlotPat :=
  match splitDash label.toList with
  | some (p, q) => ⟨p, some q⟩
  | none => ⟨label.toList, none⟩

/-- Case-insensitively consume the literal pattern `p` from the front of `cs`;
pattern characters are already lowercase. -/
def ciInit : List Char → List Char → Option (List Char)
  | [], cs => some cs
  | _ :: _, [] => none
  | p :: ps, c :: cs => if c.toLower = p then ciInit ps cs else none

/-- The literal tail `post` matches the whole of `cs` (case-insensitively). -/
def matchPost (post cs : List Char) : Bool :=
  match ciInit post cs with
  | some [] => true
  | _ => false

/-- `\s?` then `post`, matching the whole of `cs`. -/
def matchOptWsPost (post cs : List Char) : Bool :=
  matchPost post cs ||
  (match cs with
   | w :: r => jsWhitespace w && matchPost post r
   | [] => false)

/-- `-\s?` then `post`, matching the whole of `cs`. -/
def matchDashPost (post cs : List Char) : Bool :=
  match cs with
  | '-' :: r => matchOptWsPost post r
  | _ => false

/-- The full pattern `pre` `\s?` `-` `\s?` `post` matches the whole of `cs`. -/
def matchFlex (pre post cs : List Char) : Bool :=
  match ciInit pre cs with
  | some r =>
    matchDashPost post r ||
    (match r with
     | w :: r2 => jsWhitespace w && matchDashPost post r2
     | [] => false)
  | none => false

/-- The compiled label pattern matches the whole of `cs`. -/
def labelMatchesWhole (pat : SlotPat) (cs : List Char) : Bool :=
  match pat.post with
  | none => matchPost pat.pre cs
  | some post => matchFlex pat.pre post cs

/-- Index of the leftmost match of the end-anchored label regex inside `cs`:
the smallest start index whose suffix matches the whole pattern. -/
def findMatchStart (pat : SlotPat) (cs : List Char) : Option Nat :=
  (List.range (cs.length + 1)).find? (fun i => labelMatchesWhole pat (cs.drop i))

/-- `s.replace(/:$/, '')`: strip a single trailing colon. -/
def stripTrailingColon (s : String) : String :=
  match s.toList.reverse with
  | ':' :: rest => String.mk rest.reverse
  | _ => s

/-- The section-divider test (line 273): the first column equals its own
upper-casing and keeps more than one character after removing everything
except `A`-`Z` and whitespace. -/
def isDividerRow (s : String) : Bool :=
  jsToUpper s = s &&
  (s.toList.filter (fun c => ('A' ≤ c && c ≤ 'Z') || jsWhitespace c)).length > 1

/-- The availability mark test (lines 312-316): a cell is explicitly
unavailable when it is boolean `false`, its trimmed text upper-cases to
`FALSE`, or it is non-empty text that is neither `TRUE` (case-insensitive)
nor the checkmark glyph. -/
def isExplicitlyUnavailable (c : CellValue) : Bool :=
  let s := jsTrim (cellAvailStr c)
  c = CellValue.vBool false ||
  jsToUpper s = ("FALSE") ||
  (s ≠ ("") && jsToUpper s ≠ ("TRUE") && s ≠ ("✅"))

/-! ### Insertion-ordered association lists

JavaScript `Record` objects and `Map`s with string keys keep the insertion
position of a key when its value is overwritten; these operations model
that behavior. -/

/-- `Record`/`Map` assignment: replace the value at the first occurrence of
the key, or append a fresh entry. -/
def recSet {α : Type} : List (String × α) → String → α → List (String × α)
  | [], k, v => [(k, v)]
  | (k0, v0) :: rest, k, v =>
    if k0 = k then (k, v) :: rest else (k0, v0) :: recSet rest k v

/-- `Record`/`Map` lookup. -/
def recGet? {α : Type} : List (String × α) → String → Option α
  | [], _ => none
  | (k0, v) :: rest, k => if k0 = k then some v else recGet? rest k

/-- Update the value at a key in place, when present. -/
def recModify {α : Type} : List (String × α) → String → (α → α) → List (String × α)
  | [], _, _ => []
  | (k0, v) :: rest, k, f =>
    if k0 = k then (k0, f v) :: rest else (k0, v) :: recModify rest k f

/-- JavaScript `Set.prototype.add`: append if not already a member. -/
def setAdd (l : List String) (x : String) : List String :=
  if x ∈ l then l else l ++ [x]

/-! ### The availability grid parser (lines 240-331) -/

/-- A day column discovered from the header row: the matched weekday text
and the column index. -/
structure DayCol where
  name : String
  colIndex : Nat
deriving DecidableEq, Repr

/-- The weekday alternatives of the header regex
`/^(Monday|Tuesday|Wednesday|Thursday|Friday|Saturday|Sunday)/i`. -/
def dayNames : List String :=
  [("Monday"), ("Tuesday"), ("Wednesday"), ("Thursday"), ("Friday"),
   ("Saturday"), ("Sunday")]

/-- Match the day regex against the start of a trimmed header cell,
returning the matched text as it appears in the input (`match[0]`). -/
def matchDayName (s : String) : Option String :=
  match dayNames.find? (fun d => listIsInit (jsToLower d).toList (jsToLower s).toList) with
  | some d => some (String.mk (s.toList.take d.toList.length))
  | none => none

/-- Header parsing (lines 245-253): every truthy cell after column 0 whose
trimmed text starts with a weekday name becomes a day column. -/
def parseDays (headerRow : List CellValue) : List DayCol :=
  (headerRow.enum.foldl (fun acc p =>
    if p.1 > 0 && cellTruthy p.2 then
      match matchDayName (jsTrim (cellHeaderStr p.2)) with
      | some nm => acc ++ [⟨nm, p.1⟩]
      | none => acc
    else acc) [])

/-- A person's in-progress parse record (the `repsMap` entry of line 260). -/
structure RepDraft where
  name : String
  unavailableSlots : List (String × List String)
  firstRowIndex : Nat
deriving DecidableEq, Repr

/-- The row-scan state: the insertion-ordered map of drafts and the carried
`currentRepContext`. -/
structure ParseState where
  repsMap : List RepDraft
  currentRepContext : Option String
deriving DecidableEq, Repr

/-- `repsMap.has(k)`. -/
def mapHasKey (m : List RepDraft) (k : String) : Bool :=
  m.any (fun rd => rd.name = k)

/-- Update the draft stored under a name, in place. -/
def mapUpdate : List RepDraft → String → (RepDraft → RepDraft) → List RepDraft
  | [], _, _ => []
  | rd :: rest, k, f =>
    if rd.name = k then f rd :: rest else rd :: mapUpdate rest k f

/-- `Object.fromEntries(days.map(d => [d.name, new Set()]))` (line 300). -/
def initSlots (days : List DayCol) : List (String × List String) :=
  days.foldl (fun acc d => recSet acc d.name []) []

/-- The `timeSlotLabelsToIds` map (line 261), keyed by trimmed lowercased
label; `Map` construction keeps the first position of a duplicated key. -/
def mkSlotMap (timeSlots : List (String × String)) : List (String × String) :=
  timeSlots.foldl (fun acc p => recSet acc (jsToLower (jsTrim p.1)) p.2) []

/-- The label loop of lines 280-282: the first map entry whose end-anchored
regex matches the first column, together with the text left of the match
(`firstCol.replace(labelRegex, '')`). -/
def findSlotMatch : List (String × String) → String → Option (String × String)
  | [], _ => none
  | (label, id) :: rest, firstCol =>
    match findMatchStart (mkSlotPat label) firstCol.toList with
    | some i => some (String.mk (firstCol.toList.take i), id)
    | none => findSlotMatch rest firstCol

/-- The per-day marking loop (lines 306-321): add the slot id to each day
whose cell is explicitly unavailable. -/
def markDays (days : List DayCol) (row : List CellValue) (slotId : String)
    (u : List (String × List String)) : List (String × List String) :=
  days.foldl (fun acc d =>
    if isExplicitlyUnavailable (row.getD d.colIndex .vNone) then
      recModify acc d.name (fun l => setAdd l slotId)
    else acc) u

/-- One iteration of the row scan (lines 266-331). -/
def processRow (slots : List (String × String)) (days : List DayCol)
    (st : ParseState) (rowIndex : Nat) (row : List CellValue) : ParseState :=
  let firstCol := jsTrim (cellFirstCol (row.getD 0 .vNone))
  if firstCol = ("") then ⟨st.repsMap, none⟩
  else if isDividerRow firstCol then ⟨st.repsMap, none⟩
  else
    match findSlotMatch slots firstCol with
    | some (pre, slotId) =>
      let name0 := jsTrim (stripTrailingColon (jsTrim pre))
      let repName := if name0 = ("") then (st.currentRepContext.getD ("")) else name0
      if repName = ("") then st
      else
        let m1 := if mapHasKey st.repsMap repName then st.repsMap
                  else st.repsMap ++ [⟨repName, initSlots days, rowIndex + 2⟩]
        ⟨mapUpdate m1 repName (fun rd =>
            { rd with unavailableSlots := markDays days row slotId rd.unavailableSlots }),
         some repName⟩
    | none => ⟨st.repsMap, some (jsTrim (stripTrailingColon firstCol))⟩

/-- The whole row scan over `values.slice(1)` (lines 260-331). -/
def scanRows (slots : List (String × String)) (days : List DayCol)
    (rows : List (List CellValue)) : ParseState :=
  rows.enum.foldl (fun st p => processRow slots days st p.1 p.2) ⟨[], none⟩

/-! ### Name normalization (line 106) -/

/-- `name.trim().toLowerCase().replace(/"/g, '').replace(/[^a-z0-9]/g, '')`. -/
def normalizeName (name : String) : String :=
  String.mk (((jsToLower (jsTrim name)).toList.filter (fun c => c ≠ '"')).filter
    (fun c => ('a' ≤ c && c ≤ 'z') || ('0' ≤ c && c ≤ '9')))

/-! ### Skill and rank loaders (lines 110-196)

The auxiliary sheets are fetched with `FORMATTED_VALUE`, so their cells are
strings; an absent cell (`undefined`) behaves like the empty string in every
operation the code performs on it (truthiness, `parseInt`, `String`). -/

/-- Indexing into a row of the skills/ranking sheets. -/
def rowGet (row : List String) (i : Nat) : String :=
  row.getD i ("")

/-- JavaScript `parseInt(s, 10)`: skip leading whitespace, optional sign,
then the longest prefix of decimal digits; `NaN` (here `none`) if there is
no digit. -/
def digitsPrefixVal (cs : List Char) : Option Nat :=
  match cs.takeWhile (fun c => '0' ≤ c && c ≤ '9') with
  | [] => none
  | ds => some (ds.foldl (fun n c => n * 10 + (c.toNat - 48)) 0)

/-- JavaScript `parseInt(s, 10)`. -/
def jsParseInt (s : String) : Option Int :=
  match s.toList.dropWhile jsWhitespace with
  | '-' :: rest => (digitsPrefixVal rest).map (fun n => -(n : Int))
  | '+' :: rest => (digitsPrefixVal rest).map (fun n => (n : Int))
  | cs => (digitsPrefixVal cs).map (fun n => (n : Int))

/-- A skills-sheet record: per-skill integer scores and zip-code coverage. -/
structure SkillRec where
  skills : List (String × Int)
  zipCodes : List String
deriving DecidableEq, Repr

/-- `headers.findIndex(h => h.toLowerCase().includes('zip'))` (line 167). -/
def findZipIdx (headers : List String) : Int :=
  match headers.findIdx? (fun h => listHasSub (("zip").toList) (jsToLower h).toList) with
  | some i => (i : Int)
  | none => -1

/-- The `skillHeaders.forEach` loop of lines 177-182: the header at relative
index `i` reads the cell at absolute column `i + 1`. -/
def rowSkillsGo (row : List String) : Nat → List String → List (String × Int) → List (String × Int)
  | _, [], acc => acc
  | i, h :: rest, acc =>
    match jsParseInt (rowGet row (i + 1)) with
    | some v => rowSkillsGo row (i + 1) rest (recSet acc h v)
    | none => rowSkillsGo row (i + 1) rest acc

/-- `headers.slice(1, zipIdx > 0 ? zipIdx : headers.length)` (line 176)
followed by the skill-parsing loop. -/
def rowSkills (headers : List String) (zipIdx : Int) (row : List String) :
    List (String × Int) :=
  rowSkillsGo row 0
    ((headers.drop 1).take ((if 0 < zipIdx then zipIdx.toNat else headers.length) - 1)) []

/-- Separator class of the zip-splitting regex `/[,;\s]+/`. -/
def isZipSep (c : Char) : Bool :=
  c = ',' || c = ';' || jsWhitespace c

/-- Tokenize on runs of separators; with the subsequent trim-and-filter of
the source this equals the list of maximal non-separator runs. -/
def zipTokensGo : List Char → List Char → List (List Char)
  | acc, [] => if acc.isEmpty then [] else [acc.reverse]
  | acc, c :: rest =>
    if isZipSep c then
      (if acc.isEmpty then [] else [acc.reverse]) ++ zipTokensGo [] rest
    else zipTokensGo (c :: acc) rest

/-- The zip-code extraction of lines 184-188. -/
def rowZips (zipIdx : Int) (row : List String) : List String :=
  if zipIdx > -1 && rowGet row zipIdx.toNat ≠ ("") then
    (zipTokensGo [] (rowGet row zipIdx.toNat).toList).map String.mk
  else []

/-- The body of `fetchRepSkills` once the sheet values have arrived
(lines 159-191). -/
def parseSkillsValues (values : List (List String)) :
    List (String × SkillRec) :=
  if values.length < 2 then []
  else
    let headers := (values.headD []).map jsTrim
    let zipIdx := findZipIdx headers
    values.tail.foldl (fun acc row =>
      if rowGet row 0 = ("") then acc
      else recSet acc (normalizeName (rowGet row 0))
        ⟨rowSkills headers zipIdx row, rowZips zipIdx row⟩) []

/-- The body of `fetchSalesRankings` once the values have arrived
(lines 122-139): list position 0 is rank 1, header token rows are skipped,
and the first occurrence of a normalized name wins. -/
def parseRankValues (values : List (List String)) : List (String × Nat) :=
  values.enum.foldl (fun acc p =>
    match p.2 with
    | [] => acc
    | name :: _ =>
      if name = ("") then acc
      else if listHasSub (("sales order").toList) (jsToLower name).toList then acc
      else if (recGet? acc (normalizeName name)).isSome then acc
      else recSet acc (normalizeName name) (p.1 + 1)) []

/-- The observable outcome of one auxiliary fetch: a parsed `values` body, a
non-ok HTTP response, or a transport failure raised by the fetch layer. -/
inductive FetchOutcome (α : Type) where
  | ok (body : α)
  | httpError (status : Nat)
  | transportError
deriving DecidableEq, Repr

/-- An auxiliary fetch outcome that did not deliver a body. -/
def FetchOutcome.isFailure {α : Type} : FetchOutcome α → Bool
  | .ok _ => false
  | _ => true

/-- `fetchRepSkills` (lines 147-196): any failure degrades to the empty map. -/
def fetchRepSkills : FetchOutcome (List (List String)) → List (String × SkillRec)
  | .ok v => parseSkillsValues v
  | .httpError _ => []
  | .transportError => []

/-- `fetchSalesRankings` (lines 110-144): any failure degrades to the empty
map. -/
def fetchSalesRankings : FetchOutcome (List (List String)) → List (String × Nat)
  | .ok v => parseRankValues v
  | .httpError _ => []
  | .transportError => []

/-! ### Dates and the sheet selector (lines 57-103)

A JavaScript `Date` is modeled by its local calendar fields.  All the
comparisons the selector performs reduce to comparisons of calendar days:
the target is normalized to 00:00:00.000, range starts are built at
00:00:00.000 and range ends at 23:59:59.999, so `target >= start` and
`target <= end` hold exactly when the corresponding day numbers do.
`civilAbsDayI` is the standard civil-calendar day numbering (proleptic
Gregorian, days since 1970-01-01), matching `new Date(y, m, d)` including
its normalization of out-of-range month and day arguments. -/

/-- A `Date` value: normalized local calendar fields. -/
structure JsDate where
  year : Nat
  month : Nat
  day : Nat
  hours : Nat
  minutes : Nat
  seconds : Nat
  millis : Nat
deriving DecidableEq, Repr

/-- `dateToFind.setHours(0, 0, 0, 0)` (line 58), as a value transformer:
the mutation of the caller's object is modeled by returning the updated
date alongside the result. -/
def setHours0 (d : JsDate) : JsDate :=
  { d with hours := 0, minutes := 0, seconds := 0, millis := 0 }

/-- Day number of a civil date (month `1`-`12` after normalization, day
may be out of range and is carried linearly, as `Date` does). -/
def civilAbsDayI (y m d : Int) : Int :=
  let y2 := if m ≤ 2 then y - 1 else y
  let era := y2.ediv 400
  let yoe := y2 - era * 400
  let mp := (m + 9).emod 12
  let doy := (153 * mp + 2).ediv 5 + d - 1
  let doe := yoe * 365 + yoe.ediv 4 - yoe.ediv 100 + doy
  era * 146097 + doe - 719468

/-- Day number of `new Date(year, month0, dayNum)` with JavaScript's
normalization of an out-of-range month index. -/
def jsNewDateAbs (year month0 dayNum : Int) : Int :=
  civilAbsDayI (year + month0.ediv 12) (month0.emod 12 + 1) dayNum

/-- Day number of a stored `JsDate`. -/
def jsDateAbs (d : JsDate) : Int :=
  civilAbsDayI (d.year : Int) (d.month : Int) (d.day : Int)

/-- `\d{1,2}` at the head of the input: the greedy alternatives
(two digits first, then one), each with the remaining input. -/
def scanDigits12 : List Char → List (Nat × List Char)
  | a :: b :: rest =>
    if ('0' ≤ a && a ≤ '9') && ('0' ≤ b && b ≤ '9') then
      [((a.toNat - 48) * 10 + (b.toNat - 48), rest), (a.toNat - 48, b :: rest)]
    else if '0' ≤ a && a ≤ '9' then [(a.toNat - 48, b :: rest)]
    else []
  | [a] => if '0' ≤ a && a ≤ '9' then [(a.toNat - 48, [])] else []
  | [] => []

/-- Match `(\d{1,2})\/(\d{1,2})\s*-\s*(\d{1,2})\/(\d{1,2})` at this exact
start position, with the regex engine's backtracking over the greedy
digit quantifiers. -/
def matchRangeAt (cs : List Char) : Option (Nat × Nat × Nat × Nat) :=
  (scanDigits12 cs).findSome? (fun p1 =>
    match p1.2 with
    | '/' :: r2 =>
      (scanDigits12 r2).findSome? (fun p2 =>
        match (p2.2.dropWhile jsWhitespace) with
        | '-' :: r5 =>
          (scanDigits12 (r5.dropWhile jsWhitespace)).findSome? (fun p3 =>
            match p3.2 with
            | '/' :: r8 =>
              (scanDigits12 r8).findSome? (fun p4 =>
                some (p1.1, p2.1, p3.1, p4.1))
            | _ => none)
        | _ => none)
    | _ => none)

/-- `title.match(dateRangeRegex)` (line 64): the leftmost match. -/
def findRangeScan : List Char → Option (Nat × Nat × Nat × Nat)
  | [] => none
  | c :: rest =>
    match matchRangeAt (c :: rest) with
    | some r => some r
    | none => findRangeScan rest

/-- One candidate-year check of lines 71-87: start bound in `searchYear`,
end bound in the same year unless the range rolls over December→January. -/
def rangeMatchesYear (targetAbs : Int) (searchYear : Int)
    (startMonth startDay endMonth endDay : Nat) : Bool :=
  let startYear := searchYear
  let endYear := if startMonth > endMonth then startYear + 1 else startYear
  let startAbs := jsNewDateAbs startYear ((startMonth : Int) - 1) (startDay : Int)
  let endAbs := jsNewDateAbs endYear ((endMonth : Int) - 1) (endDay : Int)
  decide (startAbs ≤ targetAbs) && decide (targetAbs ≤ endAbs)

/-- The `for (const s of sheets)` loop of lines 61-93 with its early
return: the year offsets `0`, `-1`, `1` are tried for every prefixed title
carrying a date-range token. -/
def findSheetLoop (pfx : String) (targetAbs targetYear : Int) :
    List String → Option String
  | [] => none
  | t :: rest =>
    if strStartsWith t pfx then
      match findRangeScan t.toList with
      | some (m1, d1, m2, d2) =>
        if ([0, -1, 1] : List Int).any
            (fun off => rangeMatchesYear targetAbs (targetYear + off) m1 d1 m2 d2) then
          some t
        else findSheetLoop pfx targetAbs targetYear rest
      | none => findSheetLoop pfx targetAbs targetYear rest
    else findSheetLoop pfx targetAbs targetYear rest

/-- `findSheetNameForDate` (lines 57-103).  The first component is the
final state of the caller's `Date` object (mutated by `setHours`); the
second is the selected title, with the prefixed-title fallback of
lines 96-100, or `none` for the `null` return of line 102. -/
def findSheetNameForDate (pfx : String) (dateToFind : JsDate)
    (sheets : List String) : JsDate × Option String :=
  let d0 := setHours0 dateToFind
  match findSheetLoop pfx (jsDateAbs d0) (d0.year : Int) sheets with
  | some t => (d0, some t)
  | none => (d0, sheets.find? (fun t => strStartsWith t pfx))

/-! ### The resilient fetcher (lines 10-47) -/

/-- The result of one attempted `fetch`: a response with a status code, or
a raised transport error (identified by a code). -/
inductive AttemptResult where
  | resp (status : Nat)
  | exn (e : Nat)
deriving DecidableEq, Repr

/-- The overall result of `fetchWithRetry`: a returned response (possibly
a failing one) or a propagated transport error. -/
inductive RetryResult where
  | response (status : Nat)
  | raised (e : Nat)
deriving DecidableEq, Repr

/-- `response.ok || (response.status < 500 && response.status !== 429)`
(line 19); `response.ok` is status 200-299 per the fetch standard. -/
def isImmediateStatus (s : Nat) : Bool :=
  (200 ≤ s && s ≤ 299) || (s < 500 && s ≠ 429)

/-- The retry loop of lines 13-45, structured by remaining retries
(`fuel = retries - i`): at `fuel = 0` a response is returned as-is and an
exception is propagated; otherwise a retryable failure sleeps
`currentDelay` and continues with the delay doubled.  The second component
records the sleeps performed, in order. -/
def fetchGo (attempts : Nat → AttemptResult) (i currentDelay : Nat) :
    Nat → RetryResult × List Nat
  | 0 =>
    (match attempts i with
     | .resp s => (.response s, [])
     | .exn e => (.raised e, []))
  | fuel + 1 =>
    match attempts i with
    | .resp s =>
      if isImmediateStatus s then (.response s, [])
      else
        let r := fetchGo attempts (i + 1) (currentDelay * 2) fuel
        (r.1, currentDelay :: r.2)
    | .exn _ =>
      let r := fetchGo attempts (i + 1) (currentDelay * 2) fuel
      (r.1, currentDelay :: r.2)

/-- `fetchWithRetry(url, retries, initialDelay)` over an abstract sequence
of attempt outcomes. -/
def fetchWithRetry (attempts : Nat → AttemptResult) (retries initialDelay : Nat) :
    RetryResult × List Nat :=
  fetchGo attempts 0 initialDelay retries

/-! ### The rep assembler (lines 337-388) -/

/-- Region classification (lines 359-367). -/
inductive Region where
  | PHX
  | NORTH
  | SOUTH
  | UNKNOWN
deriving DecidableEq, Repr

/-- The row-index bands of lines 361-367. -/
def regionForRow (firstRowIndex : Nat) : Region :=
  if 2 ≤ firstRowIndex ∧ firstRowIndex ≤ 118 then .PHX
  else if 119 ≤ firstRowIndex ∧ firstRowIndex ≤ 135 then .NORTH
  else if 136 ≤ firstRowIndex ∧ firstRowIndex ≤ 152 then .SOUTH
  else .UNKNOWN

/-- `name.replace(/\s+/g, '-')` (line 370): each maximal whitespace run
becomes a single dash. -/
def collapseWsGo : Bool → List Char → List Char
  | _, [] => []
  | prevWs, c :: rest =>
    if jsWhitespace c then
      (if prevWs then [] else ['-']) ++ collapseWsGo true rest
    else c :: collapseWsGo false rest

/-- The id slug of line 370. -/
def jsSlug (s : String) : String :=
  String.mk (collapseWsGo false s.toList)

/-- The final output entity (the `Omit<Rep, 'schedule'>` of line 337). -/
structure Rep where
  id : String
  name : String
  availability : String
  unavailableSlots : List (String × List String)
  skills : Option (List (String × Int))
  zipCodes : Option (List String)
  region : Region
  salesRank : Option Nat
deriving DecidableEq, Repr

/-- Finalization of one draft (lines 337-378): availability summary, the
skills/zip/rank joins by normalized name, and the region classification. -/
def finalizeRep (slotCount : Nat) (days : List DayCol)
    (skillsMap : List (String × SkillRec)) (ranksMap : List (String × Nat))
    (index : Nat) (rd : RepDraft) : Rep :=
  let summary := (days.filter (fun d =>
      (((recGet? rd.unavailableSlots d.name).map List.length).getD 0) < slotCount)).map
    (fun d => String.mk (d.name.toList.take 3))
  let joined := String.intercalate (", ") summary
  let repInfo := recGet? skillsMap (normalizeName rd.name)
  { id := ("rep-") ++ toString (index + 1) ++ ("-") ++ jsSlug rd.name
    name := rd.name
    availability := if joined = ("") then ("Not available") else joined
    unavailableSlots := rd.unavailableSlots
    skills := repInfo.map SkillRec.skills
    zipCodes := repInfo.map SkillRec.zipCodes
    region := regionForRow rd.firstRowIndex
    salesRank := recGet? ranksMap (normalizeName rd.name) }

/-- The `Array.from(repsMap.values()).map((repData, index) => …)` pass. -/
def assembleReps (slotCount : Nat) (days : List DayCol)
    (skillsMap : List (String × SkillRec)) (ranksMap : List (String × Nat))
    (drafts : List RepDraft) : List Rep :=
  drafts.enum.map (fun p => finalizeRep slotCount days skillsMap ranksMap p.1 p.2)

/-- The grid half of `fetchSheetData` (lines 234-388), from the fetched
`values` to the emitted Rep list: `none` models the raised layout errors
(fewer than two rows, or no day columns).  The mock-data substitution,
which depends on configuration outside the engine source, is not modeled. -/
def parseReps (timeSlots : List (String × String)) (values : List (List CellValue))
    (skillsMap : List (String × SkillRec)) (ranksMap : List (String × Nat)) :
    Option (List Rep) :=
  if values.length < 2 then none
  else
    let days := parseDays (values.headD [])
    if days.isEmpty then none
    else
      some (assembleReps timeSlots.length days skillsMap ranksMap
        (scanRows (mkSlotMap timeSlots) days values.tail).repsMap)

/-- The observable inputs of one `fetchSheetData` query: the metadata's
sheet titles, the grid values of the selected sheet, and the outcomes of
the two auxiliary fetches. -/
structure FetchEnv where
  metaSheets : List String
  gridValues : List (List CellValue)
  skillsOutcome : FetchOutcome (List (List String))
  ranksOutcome : FetchOutcome (List (List String))

/-- `fetchSheetData` (lines 204-399) over a `FetchEnv`: the first component
is the final state of the caller's `Date` argument (passed by reference
into `findSheetNameForDate`), the second is the result — `none` models a
raised error (no prefixed sheet, or a layout error). -/
def fetchSheetDataFull (pfx : String) (timeSlots : List (String × String))
    (date : JsDate) (env : FetchEnv) : JsDate × Option (List Rep × String) :=
  let sel := findSheetNameForDate pfx date env.metaSheets
  match sel.2 with
  | none => (sel.1, none)
  | some nm =>
    (sel.1,
     (parseReps timeSlots env.gridValues (fetchRepSkills env.skillsOutcome)
        (fetchSalesRankings env.ranksOutcome)).map (fun reps => (reps, nm)))

/-! ### Lemmas about the resilient fetcher -/

theorem fetchGo_of_immediate (attempts : Nat → AttemptResult) (i d fuel s : Nat)
    (h : attempts i = .resp s) (him : isImmediateStatus s = true) :
    fetchGo attempts i d fuel = (.response s, []) := by
  cases fuel <;> simp [fetchGo, h, him]

theorem doubling_cons (d : Nat) (l : List Nat)
    (h : l = (List.range l.length).map (fun k => (d * 2) * 2 ^ k)) :
    d :: l = (List.range (d :: l).length).map (fun k => d * 2 ^ k) := by
  rw [List.length_cons, List.range_succ_eq_map, List.map_cons, List.map_map]
  have h2 : ((fun k => d * 2 ^ k) ∘ Nat.succ) = (fun k => (d * 2) * 2 ^ k) := by
    funext k
    simp only [Function.comp_apply, pow_succ]
    ring
  rw [h2, pow_zero, Nat.mul_one, ← h]

theorem fetchGo_sleeps (attempts : Nat → AttemptResult) :
    ∀ (fuel i d : Nat),
      (fetchGo attempts i d fuel).2 =
        (List.range (fetchGo attempts i d fuel).2.length).map (fun k => d * 2 ^ k) ∧
      (fetchGo attempts i d fuel).2.length ≤ fuel := by
  intro fuel
  induction fuel with
  | zero => intro i d; cases h : attempts i <;> simp [fetchGo, h]
  | succ n ih =>
    intro i d
    cases h : attempts i with
    | resp s =>
      by_cases him : isImmediateStatus s = true
      · simp [fetchGo, h, him]
      · have hrec := ih (i + 1) (d * 2)
        simp only [fetchGo, h, him, if_false, Bool.false_eq_true]
        exact ⟨doubling_cons d _ hrec.1, by simpa using Nat.succ_le_succ hrec.2⟩
    | exn e =>
      have hrec := ih (i + 1) (d * 2)
      simp only [fetchGo, h]
      exact ⟨doubling_cons d _ hrec.1, by simpa using Nat.succ_le_succ hrec.2⟩

theorem fetchGo_exhaust_resp (attempts : Nat → AttemptResult) :
    ∀ (fuel i d : Nat),
      (∀ j, j ≤ fuel → ∃ s, attempts (i + j) = .resp s ∧ isImmediateStatus s = false) →
      ∃ s, attempts (i + fuel) = .resp s ∧
        fetchGo attempts i d fuel =
          (.response s, (List.range fuel).map (fun k => d * 2 ^ k)) := by
  intro fuel
  induction fuel with
  | zero =>
    intro i d h
    obtain ⟨s, hs, _⟩ := h 0 (Nat.le_refl 0)
    rw [Nat.add_zero] at hs
    exact ⟨s, by simpa using hs, by simp [fetchGo, hs]⟩
  | succ n ih =>
    intro i d h
    obtain ⟨s0, hs0, him0⟩ := h 0 (Nat.zero_le _)
    rw [Nat.add_zero] at hs0
    obtain ⟨s, hs, heq⟩ := ih (i + 1) (d * 2) (fun j hj => by
      have := h (j + 1) (Nat.succ_le_succ hj)
      simpa [Nat.add_assoc, Nat.add_comm 1 j] using this)
    refine ⟨s, by simpa [Nat.add_assoc, Nat.add_comm 1 n] using hs, ?_⟩
    simp only [fetchGo, hs0, him0, if_false, Bool.false_eq_true, heq]
    congr 1
    have hd := doubling_cons d (List.map (fun k => (d * 2) * 2 ^ k) (List.range n)) (by simp)
    simpa using hd

theorem fetchGo_exhaust_exn (attempts : Nat → AttemptResult) :
    ∀ (fuel i d : Nat),
      (∀ j, j ≤ fuel → ∃ e, attempts (i + j) = .exn e) →
      ∃ e, attempts (i + fuel) = .exn e ∧
        fetchGo attempts i d fuel =
          (.raised e, (List.range fuel).map (fun k => d * 2 ^ k)) := by
  intro fuel
  induction fuel with
  | zero =>
    intro i d h
    obtain ⟨e, he⟩ := h 0 (Nat.le_refl 0)
    rw [Nat.add_zero] at he
    exact ⟨e, by simpa using he, by simp [fetchGo, he]⟩
  | succ n ih =>
    intro i d h
    obtain ⟨e0, he0⟩ := h 0 (Nat.zero_le _)
    rw [Nat.add_zero] at he0
    obtain ⟨e, he, heq⟩ := ih (i + 1) (d * 2) (fun j hj => by
      have := h (j + 1) (Nat.succ_le_succ hj)
      simpa [Nat.add_assoc, Nat.add_comm 1 j] using this)
    refine ⟨e, by simpa [Nat.add_assoc, Nat.add_comm 1 n] using he, ?_⟩
    simp only [fetchGo, he0, heq]
    congr 1
    have hd := doubling_cons d (List.map (fun k => (d * 2) * 2 ^ k) (List.range n)) (by simp)
    simpa using hd

/-- C4: the resilient fetcher returns immediately (no sleep, no further
attempt) any response that is successful or a non-retryable client error
(status < 500 and not 429); it retries 5xx/429 responses and transport
exceptions with sleeps that double each attempt starting at
`initialDelay`, for at most `retries` additional attempts; after
exhaustion it returns the last failing response as a value, but propagates
a transport exception as a raised error. -/
theorem fetchWithRetry_policy (attempts : Nat → AttemptResult)
    (retries initialDelay : Nat) :
    (∀ s, attempts 0 = .resp s →
      ((200 ≤ s ∧ s ≤ 299) ∨ (s < 500 ∧ s ≠ 429)) →
      fetchWithRetry attempts retries initialDelay = (.response s, [])) ∧
    ((fetchWithRetry attempts retries initialDelay).2 =
      (List.range (fetchWithRetry attempts retries initialDelay).2.length).map
        (fun k => initialDelay * 2 ^ k) ∧
     (fetchWithRetry attempts retries initialDelay).2.length ≤ retries) ∧
    ((∀ i, i ≤ retries → ∃ s, attempts i = .resp s ∧ isImmediateStatus s = false) →
      ∃ s, attempts retries = .resp s ∧
        fetchWithRetry attempts retries initialDelay =
          (.response s, (List.range retries).map (fun k => initialDelay * 2 ^ k))) ∧
    ((∀ i, i ≤ retries → ∃ e, attempts i = .exn e) →
      ∃ e, attempts retries = .exn e ∧
        fetchWithRetry attempts retries initialDelay =
          (.raised e, (List.range retries).map (fun k => initialDelay * 2 ^ k))) := by
  refine ⟨?_, fetchGo_sleeps attempts retries 0 initialDelay, ?_, ?_⟩
  · intro s h him
    have hb : isImmediateStatus s = true := by
      simp only [isImmediateStatus, Bool.or_eq_true, Bool.and_eq_true, decide_eq_true_eq,
        bne_iff_ne, ne_eq]
      omega
    exact fetchGo_of_immediate attempts 0 initialDelay retries s h hb
  · intro h
    have := fetchGo_exhaust_resp attempts retries 0 initialDelay
      (fun j hj => by simpa using h j hj)
    simpa using this
  · intro h
    have := fetchGo_exhaust_exn attempts retries 0 initialDelay
      (fun j hj => by simpa using h j hj)
    simpa using this

/-- C4 witness: a 404 on the first attempt is returned immediately with no
sleeps. -/
theorem fetchWithRetry_policy_witness :
    fetchWithRetry (fun _ => .resp 404) 3 1000 = (.response 404, []) :=
  (fetchWithRetry_policy (fun _ => .resp 404) 3 1000).1 404 rfl (by omega)

/-! ### C8: region classification -/

/-- C8: region is classified from `firstRowIndex` alone against three fixed,
mutually exclusive inclusive row-index bands (2-118 PHX, 119-135 NORTH,
136-152 SOUTH), defaulting to UNKNOWN outside all bands; in particular
index 10 yields PHX, 125 yields NORTH, and 200 yields UNKNOWN. -/
theorem regionForRow_bands (n : Nat) :
    (regionForRow n = .PHX ↔ (2 ≤ n ∧ n ≤ 118)) ∧
    (regionForRow n = .NORTH ↔ (119 ≤ n ∧ n ≤ 135)) ∧
    (regionForRow n = .SOUTH ↔ (136 ≤ n ∧ n ≤ 152)) ∧
    (regionForRow n = .UNKNOWN ↔ (n < 2 ∨ 152 < n)) ∧
    regionForRow 10 = .PHX ∧ regionForRow 125 = .NORTH ∧
    regionForRow 200 = .UNKNOWN ∧
    (∀ slotCount days skillsMap ranksMap index rd,
      (finalizeRep slotCount days skillsMap ranksMap index rd).region =
        regionForRow rd.firstRowIndex) := by
  refine ⟨?_, ?_, ?_, ?_, by decide, by decide, by decide, fun _ _ _ _ _ _ => rfl⟩ <;>
    (unfold regionForRow; split_ifs <;> simp_all <;> omega)

/-! ### C10: the date argument is normalized in place -/

/-- C10: `fetchSheetData` mutates the caller's `Date` argument in place —
`findSheetNameForDate` sets the supplied date's time-of-day to
00:00:00.000 before comparing, leaving year, month and day unchanged, and
the caller of `fetchSheetData` observes the same mutated object. -/
theorem findSheetNameForDate_mutates_date (pfx : String) (d : JsDate)
    (sheets : List String) (timeSlots : List (String × String)) (env : FetchEnv) :
    (findSheetNameForDate pfx d sheets).1 = setHours0 d ∧
    (fetchSheetDataFull pfx timeSlots d env).1 = setHours0 d ∧
    (setHours0 d).year = d.year ∧ (setHours0 d).month = d.month ∧
    (setHours0 d).day = d.day ∧ (setHours0 d).hours = 0 ∧
    (setHours0 d).minutes = 0 ∧ (setHours0 d).seconds = 0 ∧
    (setHours0 d).millis = 0 := by
  have h1 : ∀ (sh : List String), (findSheetNameForDate pfx d sh).1 = setHours0 d := by
    intro sh
    simp only [findSheetNameForDate]
    cases findSheetLoop pfx (jsDateAbs (setHours0 d)) ((setHours0 d).year : Int) sh <;> rfl
  refine ⟨h1 sheets, ?_, rfl, rfl, rfl, rfl, rfl, rfl, rfl⟩
  simp only [fetchSheetDataFull]
  cases hsel : (findSheetNameForDate pfx d env.metaSheets).2 <;>
    simp [hsel, h1 env.metaSheets]

/-! ### Record and map lemmas -/

theorem recGet?_recSet {α : Type} (u : List (String × α)) (k : String) (v : α)
    (k' : String) :
    recGet? (recSet u k v) k' = if k' = k then some v else recGet? u k' := by
  by_cases h : k' = k
  · subst h
    rw [if_pos rfl]
    induction u with
    | nil => simp [recSet, recGet?]
    | cons p rest ih =>
      obtain ⟨k0, v0⟩ := p
      by_cases h0 : k0 = k' <;> simp [recSet, recGet?, h0, ih]
  · rw [if_neg h]
    induction u with
    | nil =>
      simp only [recSet, recGet?]
      rw [if_neg (fun hh => h hh.symm)]
    | cons p rest ih =>
      obtain ⟨k0, v0⟩ := p
      by_cases h0 : k0 = k
      · subst h0
        simp only [recSet, if_pos rfl, recGet?]
        rw [if_neg (fun hh => h hh.symm), if_neg (fun hh => h hh.symm)]
      · simp only [recSet, if_neg h0, recGet?]
        by_cases h1 : k0 = k' <;> simp [h1, ih]

theorem recGet?_recModify {α : Type} (u : List (String × α)) (k : String)
    (f : α → α) (k' : String) :
    recGet? (recModify u k f) k' =
      if k' = k then (recGet? u k).map f else recGet? u k' := by
  by_cases h : k' = k
  · subst h
    rw [if_pos rfl]
    induction u with
    | nil => simp [recModify, recGet?]
    | cons p rest ih =>
      obtain ⟨k0, v0⟩ := p
      by_cases h0 : k0 = k' <;> simp [recModify, recGet?, h0, ih]
  · rw [if_neg h]
    induction u with
    | nil => rfl
    | cons p rest ih =>
      obtain ⟨k0, v0⟩ := p
      by_cases h0 : k0 = k
      · subst h0
        simp only [recModify, if_pos rfl, recGet?]
        rw [if_neg (fun hh => h hh.symm), if_neg (fun hh => h hh.symm)]
      · simp only [recModify, if_neg h0, recGet?]
        by_cases h1 : k0 = k' <;> simp [h1, ih]

theorem recModify_keys {α : Type} (u : List (String × α)) (k : String) (f : α → α) :
    (recModify u k f).map Prod.fst = u.map Prod.fst := by
  induction u with
  | nil => rfl
  | cons p rest ih =>
    obtain ⟨k0, v0⟩ := p
    by_cases h0 : k0 = k <;> simp [recModify, h0, ih]

theorem recGet?_isSome_iff {α : Type} (u : List (String × α)) (k : String) :
    (recGet? u k).isSome = true ↔ k ∈ u.map Prod.fst := by
  induction u with
  | nil => simp [recGet?]
  | cons p rest ih =>
    obtain ⟨k0, v0⟩ := p
    simp only [recGet?, List.map_cons, List.mem_cons]
    by_cases h0 : k0 = k
    · subst h0; simp
    · rw [if_neg h0, ih]
      constructor
      · intro h; exact Or.inr h
      · rintro (h | h)
        · exact absurd h.symm h0
        · exact h

theorem setAdd_mem (l : List String) (x y : String) :
    y ∈ setAdd l x ↔ y ∈ l ∨ y = x := by
  unfold setAdd
  split_ifs with h
  · constructor
    · exact Or.inl
    · rintro (hy | hy)
      · exact hy
      · exact hy ▸ h
  · simp

theorem markDays_cons (d : DayCol) (rest : List DayCol) (row : List CellValue)
    (slotId : String) (u : List (String × List String)) :
    markDays (d :: rest) row slotId u =
      markDays rest row slotId
        (if isExplicitlyUnavailable (row.getD d.colIndex .vNone) then
          recModify u d.name (fun l => setAdd l slotId) else u) :=
  rfl

theorem markDays_keys (days : List DayCol) (row : List CellValue) (slotId : String)
    (u : List (String × List String)) :
    (markDays days row slotId u).map Prod.fst = u.map Prod.fst := by
  induction days generalizing u with
  | nil => rfl
  | cons d rest ih =>
    rw [markDays_cons]
    split_ifs with h
    · rw [ih, recModify_keys]
    · rw [ih]

theorem exists_daycol_cons (P : DayCol → Prop) (d : DayCol) (rest : List DayCol) :
    (∃ x ∈ d :: rest, P x) ↔ P d ∨ ∃ x ∈ rest, P x := by
  constructor
  · rintro ⟨x, hx, hP⟩
    rcases List.mem_cons.mp hx with h | h
    · exact Or.inl (h ▸ hP)
    · exact Or.inr ⟨x, h, hP⟩
  · rintro (h | ⟨x, hx, hP⟩)
    · exact ⟨d, List.mem_cons_self d rest, h⟩
    · exact ⟨x, List.mem_cons_of_mem d hx, hP⟩

theorem markDays_mem (days : List DayCol) (row : List CellValue) (slotId : String)
    (u : List (String × List String)) (name x : String) :
    x ∈ ((recGet? (markDays days row slotId u) name).getD []) ↔
      x ∈ ((recGet? u name).getD []) ∨
      (x = slotId ∧ (recGet? u name).isSome = true ∧
       ∃ d ∈ days, d.name = name ∧
         isExplicitlyUnavailable (row.getD d.colIndex .vNone) = true) := by
  induction days generalizing u with
  | nil => simp [markDays]
  | cons d rest ih =>
    rw [markDays_cons,
      exists_daycol_cons (fun d' => d'.name = name ∧
        isExplicitlyUnavailable (row.getD d'.colIndex .vNone) = true) d rest]
    by_cases hun : isExplicitlyUnavailable (row.getD d.colIndex .vNone) = true
    · rw [if_pos hun, ih]
      by_cases hn : d.name = name
      · simp only [recGet?_recModify, if_pos hn.symm]
        rw [hn]
        cases hu : recGet? u name with
        | none => simp [hu]
        | some l =>
          simp only [hu, Option.map_some', Option.getD_some, Option.isSome_some,
            true_and]
          rw [setAdd_mem]
          have hhead : name = name ∧
              isExplicitlyUnavailable (row.getD d.colIndex .vNone) = true := ⟨rfl, hun⟩
          tauto
      · simp only [recGet?_recModify, if_neg (Ne.symm hn)]
        have hhead : ¬ (d.name = name ∧
            isExplicitlyUnavailable (row.getD d.colIndex .vNone) = true) :=
          fun hc => hn hc.1
        tauto
    · rw [if_neg hun, ih]
      have hhead : ¬ (d.name = name ∧
          isExplicitlyUnavailable (row.getD d.colIndex .vNone) = true) :=
        fun hc => hun hc.2
      tauto

theorem initSlots_get (days : List DayCol) (name : String) :
    recGet? (initSlots days) name =
      if name ∈ days.map DayCol.name then some [] else none := by
  have main : ∀ (ds : List DayCol) (acc : List (String × List String)),
      recGet? (ds.foldl (fun acc d => recSet acc d.name []) acc) name =
        if name ∈ ds.map DayCol.name then some [] else recGet? acc name := by
    intro ds
    induction ds with
    | nil => intro acc; simp
    | cons d rest ih =>
      intro acc
      rw [List.foldl_cons, ih]
      by_cases h : name ∈ rest.map DayCol.name
      · simp [h]
      · rw [if_neg h, recGet?_recSet]
        by_cases h2 : name = d.name <;> simp [h, h2]
  have := main days []
  simpa [initSlots, recGet?] using this

theorem isExplicitlyUnavailable_iff (c : CellValue) :
    isExplicitlyUnavailable c = true ↔
      (c = CellValue.vBool false ∨
       jsToUpper (jsTrim (cellAvailStr c)) = ("FALSE") ∨
       (jsTrim (cellAvailStr c) ≠ ("") ∧
        jsToUpper (jsTrim (cellAvailStr c)) ≠ ("TRUE") ∧
        jsTrim (cellAvailStr c) ≠ ("✅"))) := by
  simp only [isExplicitlyUnavailable, Bool.or_eq_true, Bool.and_eq_true,
    decide_eq_true_eq, ne_eq, Bool.not_eq_true', decide_eq_false_iff_not]
  tauto

theorem nodup_names_inj :
    ∀ (days : List DayCol), (days.map DayCol.name).Nodup →
      ∀ d d', d ∈ days → d' ∈ days → d.name = d'.name → d = d' := by
  intro days
  induction days with
  | nil => intro _ d d' hd _ _; cases hd
  | cons a rest ih =>
    intro hnd d d' hd hd' h
    rw [List.map_cons, List.nodup_cons] at hnd
    rcases List.mem_cons.mp hd with h1 | h1 <;> rcases List.mem_cons.mp hd' with h2 | h2
    · exact h1.trans h2.symm
    · exfalso
      refine hnd.1 ?_
      have ha : a.name = d'.name := by rw [← h1]; exact h
      rw [ha]
      exact List.mem_map_of_mem DayCol.name h2
    · exfalso
      refine hnd.1 ?_
      have ha : a.name = d.name := by rw [← h2]; exact h.symm
      rw [ha]
      exact List.mem_map_of_mem DayCol.name h1
    · exact ih hnd.2 d d' h1 h2 h

/-- C2: for a time-slot row and a freshly initialized draft record, the
`(day, slot)` pair is added to `unavailableSlots` if and only if the day's
cell is explicitly marked unavailable — boolean `false`, trimmed text
upper-casing to `FALSE`, or non-empty text that is neither `TRUE`
(case-insensitive) nor the checkmark glyph; an empty cell, boolean or
textual `TRUE`, or a checkmark leaves the slot available. -/
theorem markDays_unavailable_iff (days : List DayCol) (row : List CellValue)
    (slotId : String) (hnd : (days.map DayCol.name).Nodup) :
    ∀ d ∈ days,
      (slotId ∈ ((recGet? (markDays days row slotId (initSlots days)) d.name).getD []))
        ↔ (row.getD d.colIndex CellValue.vNone = CellValue.vBool false ∨
           jsToUpper (jsTrim (cellAvailStr (row.getD d.colIndex CellValue.vNone))) = ("FALSE") ∨
           (jsTrim (cellAvailStr (row.getD d.colIndex CellValue.vNone)) ≠ ("") ∧
            jsToUpper (jsTrim (cellAvailStr (row.getD d.colIndex CellValue.vNone))) ≠ ("TRUE") ∧
            jsTrim (cellAvailStr (row.getD d.colIndex CellValue.vNone)) ≠ ("✅"))) := by
  intro d hd
  rw [markDays_mem]
  have hinit : recGet? (initSlots days) d.name = some [] := by
    rw [initSlots_get, if_pos (List.mem_map_of_mem DayCol.name hd)]
  rw [← isExplicitlyUnavailable_iff]
  constructor
  · rintro (hmem | ⟨_, _, d', hd', hdn, hdu⟩)
    · rw [hinit] at hmem
      simp at hmem
    · have heq : d' = d := nodup_names_inj days hnd d' d hd' hd hdn
      rw [← heq]
      exact hdu
  · intro hc
    exact Or.inr ⟨rfl, by rw [hinit]; rfl, d, hd, rfl, hc⟩

/-- C2 witness: with a single Monday column, a cell reading `booked` marks
the slot unavailable. -/
theorem markDays_unavailable_iff_witness :
    ("am") ∈ ((recGet? (markDays [⟨("Monday"), 1⟩]
        [CellValue.vStr ("x"), CellValue.vStr ("booked")] ("am")
        (initSlots [⟨("Monday"), 1⟩])) ("Monday")).getD []) :=
  (markDays_unavailable_iff [⟨("Monday"), 1⟩]
      [CellValue.vStr ("x"), CellValue.vStr ("booked")] ("am")
      (by decide) ⟨("Monday"), 1⟩ (by decide)).mpr (by decide)

theorem mapUpdate_names (m : List RepDraft) (k : String) (f : RepDraft → RepDraft)
    (hf : ∀ rd, (f rd).name = rd.name) :
    (mapUpdate m k f).map RepDraft.name = m.map RepDraft.name := by
  induction m with
  | nil => rfl
  | cons rd rest ih =>
    simp only [mapUpdate]
    split_ifs with h
    · simp [hf]
    · simp [ih]

theorem mapHasKey_iff (m : List RepDraft) (k : String) :
    mapHasKey m k = true ↔ k ∈ m.map RepDraft.name := by
  simp only [mapHasKey, List.any_eq_true, decide_eq_true_eq, List.mem_map]

/-- C1: in the grid parser's row scan, when the first column matches a
configured time-slot label anchored at the end of the string, the person
name is the text preceding the label with a trailing colon stripped; if
that text is empty the name falls back to the carried
`currentRepContext`; and if the name is still empty (no context, or an
empty-string context, which is falsy) the row is consumed with no change
to any `RepDraft` or to `currentRepContext`.  The closing conjunct is the
spec's example: a slot-label-only row immediately after a bare-name row
attributes its slots to that prior name. -/
theorem processRow_name_resolution (slots : List (String × String))
    (days : List DayCol) (st : ParseState) (rowIndex : Nat) (row : List CellValue)
    (pre slotId : String)
    (h1 : jsTrim (cellFirstCol (row.getD 0 CellValue.vNone)) ≠ (""))
    (h2 : isDividerRow (jsTrim (cellFirstCol (row.getD 0 CellValue.vNone))) = false)
    (h3 : findSlotMatch slots (jsTrim (cellFirstCol (row.getD 0 CellValue.vNone))) =
      some (pre, slotId)) :
    ((jsTrim (stripTrailingColon (jsTrim pre)) ≠ ("") →
       (processRow slots days st rowIndex row).currentRepContext =
         some (jsTrim (stripTrailingColon (jsTrim pre))) ∧
       jsTrim (stripTrailingColon (jsTrim pre)) ∈
         (processRow slots days st rowIndex row).repsMap.map RepDraft.name) ∧
     (∀ c, jsTrim (stripTrailingColon (jsTrim pre)) = ("") →
       st.currentRepContext = some c → c ≠ ("") →
       (processRow slots days st rowIndex row).currentRepContext = some c ∧
       c ∈ (processRow slots days st rowIndex row).repsMap.map RepDraft.name) ∧
     (jsTrim (stripTrailingColon (jsTrim pre)) = ("") →
       (st.currentRepContext = none ∨ st.currentRepContext = some ("")) →
       processRow slots days st rowIndex row = st)) ∧
    scanRows [(("10am - 12pm"), ("am"))] [⟨("Monday"), 1⟩]
        [[CellValue.vStr ("Jane Doe")], [CellValue.vStr ("10am - 12pm")]] =
      ⟨[⟨("Jane Doe"), [(("Monday"), [])], 3⟩], some ("Jane Doe")⟩ := by
  refine ⟨⟨?_, ?_, ?_⟩, by decide⟩
  · intro hne
    simp only [processRow, if_neg h1, h2, Bool.false_eq_true, if_false, h3]
    rw [if_neg hne, if_neg hne]
    refine ⟨rfl, ?_⟩
    rw [mapUpdate_names _ _
      (fun rd => { rd with unavailableSlots := markDays days row slotId rd.unavailableSlots })
      (fun rd => rfl)]
    split_ifs with hk
    · exact (mapHasKey_iff _ _).mp hk
    · simp
  · intro c h0 hctx hcne
    simp only [processRow, if_neg h1, h2, Bool.false_eq_true, if_false, h3]
    rw [if_pos h0, hctx]
    simp only [Option.getD_some]
    rw [if_neg hcne]
    refine ⟨rfl, ?_⟩
    rw [mapUpdate_names _ _
      (fun rd => { rd with unavailableSlots := markDays days row slotId rd.unavailableSlots })
      (fun rd => rfl)]
    split_ifs with hk
    · exact (mapHasKey_iff _ _).mp hk
    · simp
  · intro h0 hctx
    simp only [processRow, if_neg h1, h2, Bool.false_eq_true, if_false, h3]
    rw [if_pos h0]
    rcases hctx with h | h <;> rw [h] <;> simp

/-- C1 witness: a labeled row `Bob: 10am-12pm` resolves the name `Bob` and
creates its draft. -/
theorem processRow_name_resolution_witness :
    (processRow [(("10am - 12pm"), ("am"))] [⟨("Monday"), 1⟩] ⟨[], none⟩ 0
        [CellValue.vStr ("Bob: 10am-12pm")]).currentRepContext = some ("Bob") ∧
    ("Bob") ∈ (processRow [(("10am - 12pm"), ("am"))] [⟨("Monday"), 1⟩] ⟨[], none⟩ 0
        [CellValue.vStr ("Bob: 10am-12pm")]).repsMap.map RepDraft.name :=
  ((processRow_name_resolution [(("10am - 12pm"), ("am"))] [⟨("Monday"), 1⟩]
      ⟨[], none⟩ 0 [CellValue.vStr ("Bob: 10am-12pm")] ("Bob: ") ("am")
      (by decide) (by decide) (by decide)).1).1 (by decide)

/-- C9: the all-caps divider test runs before time-slot matching: a data
row whose first column equals its own upper-casing and keeps more than one
character after the `[^A-Z\s]` filter only resets `currentRepContext` and
is skipped — even when that text ends in a configured time-slot label
written in capitals, as the concrete `SMITH 10AM - 12PM` conjuncts show
(the label would match, yet no draft is created and no slot marked). -/
theorem divider_precedes_slot_match (slots : List (String × String))
    (days : List DayCol) (st : ParseState) (rowIndex : Nat) (row : List CellValue)
    (h1 : jsTrim (cellFirstCol (row.getD 0 CellValue.vNone)) ≠ (""))
    (h2 : isDividerRow (jsTrim (cellFirstCol (row.getD 0 CellValue.vNone))) = true) :
    processRow slots days st rowIndex row = ⟨st.repsMap, none⟩ ∧
    (findSlotMatch [(("10am - 12pm"), ("am"))] ("SMITH 10AM - 12PM")).isSome = true ∧
    processRow [(("10am - 12pm"), ("am"))] [⟨("Monday"), 1⟩] ⟨[], some ("Prev")⟩ 0
        [CellValue.vStr ("SMITH 10AM - 12PM"), CellValue.vStr ("FALSE")] =
      ⟨[], none⟩ := by
  refine ⟨?_, by decide, by decide⟩
  simp only [processRow, if_neg h1, h2, if_true]

/-- C9 witness: the general divider rule applied to the concrete
`SMITH 10AM - 12PM` row. -/
theorem divider_precedes_slot_match_witness :
    processRow [] [] ⟨[], some ("Prev")⟩ 5
        [CellValue.vStr ("SMITH 10AM - 12PM")] = ⟨[], none⟩ :=
  (divider_precedes_slot_match [] [] ⟨[], some ("Prev")⟩ 5
      [CellValue.vStr ("SMITH 10AM - 12PM")] (by decide) (by decide)).1

theorem initSlots_keys (days : List DayCol) (k : String) :
    k ∈ (initSlots days).map Prod.fst ↔ k ∈ days.map DayCol.name := by
  rw [← recGet?_isSome_iff, initSlots_get]
  by_cases h : k ∈ days.map DayCol.name <;> simp [h]

theorem mapUpdate_mem (m : List RepDraft) (k : String) (f : RepDraft → RepDraft) :
    ∀ rd' ∈ mapUpdate m k f, rd' ∈ m ∨ ∃ rd ∈ m, rd' = f rd := by
  induction m with
  | nil => intro rd' h; cases h
  | cons rd rest ih =>
    intro rd' h
    simp only [mapUpdate] at h
    split_ifs at h with hk
    · rcases List.mem_cons.mp h with h | h
      · exact Or.inr ⟨rd, List.mem_cons_self rd rest, h⟩
      · exact Or.inl (List.mem_cons_of_mem rd h)
    · rcases List.mem_cons.mp h with h | h
      · exact Or.inl (h ▸ List.mem_cons_self rd rest)
      · rcases ih rd' h with h2 | ⟨rd0, hrd0, heq⟩
        · exact Or.inl (List.mem_cons_of_mem rd h2)
        · exact Or.inr ⟨rd0, List.mem_cons_of_mem rd hrd0, heq⟩

theorem snd_mem_of_mem_enumFrom {α : Type} :
    ∀ (l : List α) (n : Nat) (p : Nat × α), p ∈ l.enumFrom n → p.2 ∈ l := by
  intro l
  induction l with
  | nil => intro n p h; cases h
  | cons a rest ih =>
    intro n p h
    simp only [List.enumFrom] at h
    rcases List.mem_cons.mp h with h | h
    · rw [h]; exact List.mem_cons_self a rest
    · exact List.mem_cons_of_mem a (ih (n + 1) p h)

theorem processRow_preserves_keys (slots : List (String × String))
    (days : List DayCol) (st : ParseState) (rowIndex : Nat) (row : List CellValue)
    (hst : ∀ rd ∈ st.repsMap,
      rd.unavailableSlots.map Prod.fst = (initSlots days).map Prod.fst) :
    ∀ rd ∈ (processRow slots days st rowIndex row).repsMap,
      rd.unavailableSlots.map Prod.fst = (initSlots days).map Prod.fst := by
  intro rd' hrd'
  by_cases hc1 : jsTrim (cellFirstCol (row.getD 0 CellValue.vNone)) = ("")
  · simp only [processRow, if_pos hc1] at hrd'
    exact hst rd' hrd'
  · by_cases hc2 : isDividerRow (jsTrim (cellFirstCol (row.getD 0 CellValue.vNone))) = true
    · simp only [processRow, if_neg hc1, hc2, if_true] at hrd'
      exact hst rd' hrd'
    · rw [Bool.not_eq_true] at hc2
      cases hm : findSlotMatch slots (jsTrim (cellFirstCol (row.getD 0 CellValue.vNone))) with
      | none =>
        simp only [processRow, if_neg hc1, hc2, Bool.false_eq_true, if_false, hm] at hrd'
        exact hst rd' hrd'
      | some pq =>
        obtain ⟨pre, slotId⟩ := pq
        simp only [processRow, if_neg hc1, hc2, Bool.false_eq_true, if_false, hm] at hrd'
        set R := (if jsTrim (stripTrailingColon (jsTrim pre)) = ("") then
            st.currentRepContext.getD ("") else jsTrim (stripTrailingColon (jsTrim pre))) with hR
        by_cases h0 : R = ("")
        · rw [if_pos h0] at hrd'
          exact hst rd' hrd'
        · rw [if_neg h0] at hrd'
          have hm1 : ∀ rd0 ∈ (if mapHasKey st.repsMap R then st.repsMap
              else st.repsMap ++ [⟨R, initSlots days, rowIndex + 2⟩]),
              rd0.unavailableSlots.map Prod.fst = (initSlots days).map Prod.fst := by
            intro rd0 h0'
            split_ifs at h0' with hk
            · exact hst rd0 h0'
            · rcases List.mem_append.mp h0' with hmem | hmem
              · exact hst rd0 hmem
              · simp only [List.mem_singleton] at hmem
                rw [hmem]
          rcases mapUpdate_mem _ _ _ rd' hrd' with hmem | ⟨rd0, hrd0, heq⟩
          · exact hm1 rd' hmem
          · rw [heq]
            show (markDays days row slotId rd0.unavailableSlots).map Prod.fst = _
            rw [markDays_keys]
            exact hm1 rd0 hrd0

theorem scanRows_keys (slots : List (String × String)) (days : List DayCol)
    (rows : List (List CellValue)) :
    ∀ rd ∈ (scanRows slots days rows).repsMap,
      rd.unavailableSlots.map Prod.fst = (initSlots days).map Prod.fst := by
  suffices h : ∀ (l : List (Nat × List CellValue)) (st : ParseState),
      (∀ rd ∈ st.repsMap,
        rd.unavailableSlots.map Prod.fst = (initSlots days).map Prod.fst) →
      ∀ rd ∈ (l.foldl (fun st p => processRow slots days st p.1 p.2) st).repsMap,
        rd.unavailableSlots.map Prod.fst = (initSlots days).map Prod.fst by
    exact h rows.enum ⟨[], none⟩ (by intro rd h0; cases h0)
  intro l
  induction l with
  | nil => intro st hst; exact hst
  | cons p rest ih =>
    intro st hst
    exact ih _ (processRow_preserves_keys slots days st p.1 p.2 hst)

/-- C7: for every successful query, every emitted Rep's `unavailableSlots`
contains an entry (possibly empty) for every `DayCol` discovered from the
header row, and contains no other keys. -/
theorem unavailableSlots_keys_complete (timeSlots : List (String × String))
    (values : List (List CellValue)) (skillsMap : List (String × SkillRec))
    (ranksMap : List (String × Nat)) (reps : List Rep)
    (h : parseReps timeSlots values skillsMap ranksMap = some reps) :
    ∀ r ∈ reps,
      (∀ d ∈ parseDays (values.headD []),
        (recGet? r.unavailableSlots d.name).isSome = true) ∧
      (∀ k ∈ r.unavailableSlots.map Prod.fst,
        ∃ d ∈ parseDays (values.headD []), d.name = k) := by
  intro r hr
  simp only [parseReps] at h
  by_cases hlen : values.length < 2
  · rw [if_pos hlen] at h
    cases h
  · rw [if_neg hlen] at h
    by_cases hempty : (parseDays (values.headD [])).isEmpty = true
    · rw [if_pos hempty] at h
      cases h
    rw [if_neg hempty] at h
    have hreps : reps = assembleReps timeSlots.length (parseDays (values.headD []))
        skillsMap ranksMap
        (scanRows (mkSlotMap timeSlots) (parseDays (values.headD [])) values.tail).repsMap :=
      (Option.some.inj h).symm
    rw [hreps] at hr
    simp only [assembleReps] at hr
    rcases List.mem_map.mp hr with ⟨p, hp, hfin⟩
    have hpm : p.2 ∈ (scanRows (mkSlotMap timeSlots) (parseDays (values.headD []))
        values.tail).repsMap :=
      snd_mem_of_mem_enumFrom _ 0 p hp
    have hkeys := scanRows_keys (mkSlotMap timeSlots) (parseDays (values.headD []))
      values.tail p.2 hpm
    have hru : r.unavailableSlots = p.2.unavailableSlots := by
      rw [← hfin]
      rfl
    constructor
    · intro d hd
      rw [hru, recGet?_isSome_iff, hkeys, initSlots_keys]
      exact List.mem_map_of_mem DayCol.name hd
    · intro k hk
      rw [hru, hkeys, initSlots_keys] at hk
      rcases List.mem_map.mp hk with ⟨d, hd, hdk⟩
      exact ⟨d, hd, hdk⟩

/-- The concrete slot catalog and grid used by the C7 witness. -/
def exTimeSlots : List (String × String) := [(("10am - 12pm"), ("am"))]

/-- The concrete grid used by the C7 witness. -/
def exGrid : List (List CellValue) :=
  [[CellValue.vStr ("x"), CellValue.vStr ("Monday 1/6")],
   [CellValue.vStr ("Sam: 10am - 12pm"), CellValue.vStr ("FALSE")]]

/-- C7 witness: in the concrete grid, the single parsed rep carries an
entry for the Monday column. -/
theorem unavailableSlots_keys_complete_witness :
    (recGet? ((((parseReps exTimeSlots exGrid [] []).getD []).headD
        ⟨(""), (""), (""), [], none, none, Region.UNKNOWN, none⟩).unavailableSlots)
      ("Monday")).isSome = true := by
  have h := unavailableSlots_keys_complete exTimeSlots exGrid [] []
    ((parseReps exTimeSlots exGrid [] []).getD []) (by decide)
  exact (h (((parseReps exTimeSlots exGrid [] []).getD []).headD
      ⟨(""), (""), (""), [], none, none, Region.UNKNOWN, none⟩) (by decide)).1
    ⟨("Monday"), 1⟩ (by decide)

/-! ### C6: auxiliary failure degrades gracefully -/

/-- Projection of a `Rep` to the fields determined by the availability grid
alone (everything except the skills/zip/rank joins). -/
def repCore (r : Rep) : String × String × String × List (String × List String) × Region :=
  (r.id, r.name, r.availability, r.unavailableSlots, r.region)

theorem assembleReps_core (slotCount : Nat) (days : List DayCol)
    (sm sm' : List (String × SkillRec)) (rm rm' : List (String × Nat))
    (drafts : List RepDraft) :
    (assembleReps slotCount days sm rm drafts).map repCore =
      (assembleReps slotCount days sm' rm' drafts).map repCore := by
  simp only [assembleReps, List.map_map]
  exact List.map_congr_left (fun p _ => rfl)

theorem parseReps_core (timeSlots : List (String × String))
    (values : List (List CellValue)) (sm sm' : List (String × SkillRec))
    (rm rm' : List (String × Nat)) :
    (parseReps timeSlots values sm rm).map (List.map repCore) =
      (parseReps timeSlots values sm' rm').map (List.map repCore) := by
  simp only [parseReps]
  by_cases h1 : values.length < 2
  · rw [if_pos h1, if_pos h1]
  · rw [if_neg h1, if_neg h1]
    by_cases h2 : (parseDays (values.headD [])).isEmpty = true
    · rw [if_pos h2, if_pos h2]
    · rw [if_neg h2, if_neg h2]
      simp only [Option.map_some']
      exact congrArg some (assembleReps_core _ _ sm sm' rm rm' _)

theorem parseReps_mem_elim (timeSlots : List (String × String))
    (values : List (List CellValue)) (sm : List (String × SkillRec))
    (rm : List (String × Nat)) (reps : List Rep)
    (h : parseReps timeSlots values sm rm = some reps) (r : Rep) (hr : r ∈ reps) :
    ∃ i rd, r = finalizeRep timeSlots.length (parseDays (values.headD [])) sm rm i rd := by
  simp only [parseReps] at h
  by_cases hlen : values.length < 2
  · rw [if_pos hlen] at h
    cases h
  · rw [if_neg hlen] at h
    by_cases hempty : (parseDays (values.headD [])).isEmpty = true
    · rw [if_pos hempty] at h
      cases h
    rw [if_neg hempty] at h
    rw [← Option.some.inj h] at hr
    simp only [assembleReps] at hr
    rcases List.mem_map.mp hr with ⟨p, _, hfin⟩
    exact ⟨p.1, p.2, hfin.symm⟩

/-- C6: when the skills (or rankings) retrieval yields a non-2xx response
or a transport failure, the loader returns an empty mapping instead of
raising, and `fetchSheetData` still returns the full Rep list parsed from
the availability grid, with `skills`/`zipCodes` (respectively `salesRank`)
absent on every Rep; the grid-derived content of the result never depends
on the auxiliary outcomes at all. -/
theorem auxiliary_failure_degrades (pfx : String)
    (timeSlots : List (String × String)) (d : JsDate) (env : FetchEnv)
    (hs : env.skillsOutcome.isFailure = true) :
    fetchRepSkills env.skillsOutcome = [] ∧
    (∀ reps nm, (fetchSheetDataFull pfx timeSlots d env).2 = some (reps, nm) →
      ∀ r ∈ reps, r.skills = none ∧ r.zipCodes = none) ∧
    (env.ranksOutcome.isFailure = true →
      fetchSalesRankings env.ranksOutcome = [] ∧
      (∀ reps nm, (fetchSheetDataFull pfx timeSlots d env).2 = some (reps, nm) →
        ∀ r ∈ reps, r.salesRank = none)) ∧
    (∀ so ro so' ro',
      (fetchSheetDataFull pfx timeSlots d ⟨env.metaSheets, env.gridValues, so, ro⟩).2.map
          (fun pr => (pr.1.map repCore, pr.2)) =
        (fetchSheetDataFull pfx timeSlots d ⟨env.metaSheets, env.gridValues, so', ro'⟩).2.map
          (fun pr => (pr.1.map repCore, pr.2))) := by
  have hskills : fetchRepSkills env.skillsOutcome = [] := by
    cases ho : env.skillsOutcome with
    | ok v => rw [ho] at hs; cases hs
    | httpError s => rfl
    | transportError => rfl
  have hparse : ∀ reps nm, (fetchSheetDataFull pfx timeSlots d env).2 = some (reps, nm) →
      parseReps timeSlots env.gridValues (fetchRepSkills env.skillsOutcome)
        (fetchSalesRankings env.ranksOutcome) = some reps := by
    intro reps nm h
    simp only [fetchSheetDataFull] at h
    cases hsel : (findSheetNameForDate pfx d env.metaSheets).2 with
    | none => rw [hsel] at h; cases h
    | some nm0 =>
      rw [hsel] at h
      rcases Option.map_eq_some'.mp h with ⟨reps0, hreps0, heq⟩
      cases heq
      exact hreps0
  refine ⟨hskills, ?_, ?_, ?_⟩
  · intro reps nm h r hr
    have hp := hparse reps nm h
    rw [hskills] at hp
    rcases parseReps_mem_elim _ _ _ _ _ hp r hr with ⟨i, rd, hrfin⟩
    rw [hrfin]
    constructor <;> simp [finalizeRep, recGet?]
  · intro hrk
    have hranks : fetchSalesRankings env.ranksOutcome = [] := by
      cases ho : env.ranksOutcome with
      | ok v => rw [ho] at hrk; cases hrk
      | httpError s => rfl
      | transportError => rfl
    refine ⟨hranks, ?_⟩
    intro reps nm h r hr
    have hp := hparse reps nm h
    rw [hranks] at hp
    rcases parseReps_mem_elim _ _ _ _ _ hp r hr with ⟨i, rd, hrfin⟩
    rw [hrfin]
    simp [finalizeRep, recGet?]
  · intro so ro so' ro'
    simp only [fetchSheetDataFull]
    cases hsel : (findSheetNameForDate pfx d env.metaSheets).2 with
    | none => simp
    | some nm0 =>
      simp only [Option.map_map]
      have hcore := parseReps_core timeSlots env.gridValues (fetchRepSkills so)
        (fetchRepSkills so') (fetchSalesRankings ro) (fetchSalesRankings ro')
      cases hA : parseReps timeSlots env.gridValues (fetchRepSkills so)
          (fetchSalesRankings ro) with
      | none =>
        cases hB : parseReps timeSlots env.gridValues (fetchRepSkills so')
            (fetchSalesRankings ro') with
        | none => simp
        | some lb => rw [hA, hB] at hcore; cases hcore
      | some la =>
        cases hB : parseReps timeSlots env.gridValues (fetchRepSkills so')
            (fetchSalesRankings ro') with
        | none => rw [hA, hB] at hcore; cases hcore
        | some lb =>
          rw [hA, hB] at hcore
          simp only [Option.map_some'] at hcore ⊢
          simp only [Function.comp]
          rw [Option.some.inj hcore]

/-- C6 witness: a 500 from the skills endpoint degrades to the empty map. -/
theorem auxiliary_failure_degrades_witness :
    fetchRepSkills (FetchOutcome.httpError 500) = [] :=
  (auxiliary_failure_degrades ("Schedule") [] ⟨2024, 1, 2, 0, 0, 0, 0⟩
      ⟨[], [], FetchOutcome.httpError 500, FetchOutcome.transportError⟩ rfl).1

/-! ### C3: sheet selection -/

/-- Claim-side formulation: for candidate year `y` the range's start bound
is built in year `y` and its end bound in year `y`, except year `y + 1`
when the start month exceeds the end month (a December→January rollover);
the range contains the target when the target day lies between start-of-day
of the start bound and end-of-day of the end bound. -/
def claimYearContains (targetAbs : Int) (y : Int) (m1 d1 m2 d2 : Nat) : Bool :=
  let endYear := if m1 > m2 then y + 1 else y
  decide (jsNewDateAbs y ((m1 : Int) - 1) (d1 : Int) ≤ targetAbs) &&
  decide (targetAbs ≤ jsNewDateAbs endYear ((m2 : Int) - 1) (d2 : Int))

/-- Claim-side formulation: a title matches when its embedded `M/D - M/D`
token contains the target date for some candidate year in
`{Y, Y - 1, Y + 1}`. -/
def claimTitleMatches (targetAbs : Int) (y : Int) (t : String) : Bool :=
  match findRangeScan t.toList with
  | some (m1, d1, m2, d2) =>
    ([y, y - 1, y + 1] : List Int).any (fun yy => claimYearContains targetAbs yy m1 d1 m2 d2)
  | none => false

/-- Claim-side formulation of the selection: the first prefixed title (in
list order) whose range matches; otherwise the first prefixed title;
otherwise no selection. -/
def claimSheetSelection (pfx : String) (targetAbs : Int) (y : Int)
    (sheets : List String) : Option String :=
  match sheets.find? (fun t => strStartsWith t pfx && claimTitleMatches targetAbs y t) with
  | some t => some t
  | none => sheets.find? (fun t => strStartsWith t pfx)

theorem yearOffsets_any (R : Int → Bool) (y : Int) :
    ([0, -1, 1] : List Int).any (fun off => R (y + off)) =
      ([y, y - 1, y + 1] : List Int).any R := by
  simp only [List.any_cons, List.any_nil, Bool.or_false]
  rw [add_zero, sub_eq_add_neg]

theorem claimTitleMatches_eq (a y : Int) (t : String) :
    claimTitleMatches a y t =
      (match findRangeScan t.toList with
       | some (m1, d1, m2, d2) =>
         ([0, -1, 1] : List Int).any (fun off => rangeMatchesYear a (y + off) m1 d1 m2 d2)
       | none => false) := by
  unfold claimTitleMatches
  cases hr : findRangeScan t.toList with
  | none => rfl
  | some q =>
    obtain ⟨m1, d1, m2, d2⟩ := q
    show ([y, y - 1, y + 1] : List Int).any (fun yy => claimYearContains a yy m1 d1 m2 d2) =
      ([0, -1, 1] : List Int).any (fun off => rangeMatchesYear a (y + off) m1 d1 m2 d2)
    rw [← yearOffsets_any (fun yy => claimYearContains a yy m1 d1 m2 d2) y]
    rfl

theorem findSheetLoop_eq (pfx : String) (a y : Int) :
    ∀ sheets, findSheetLoop pfx a y sheets =
      sheets.find? (fun t => strStartsWith t pfx && claimTitleMatches a y t) := by
  intro sheets
  induction sheets with
  | nil => rfl
  | cons t rest ih =>
    by_cases hp : strStartsWith t pfx = true
    · cases hr : findRangeScan t.toList with
      | none =>
        have hpredv : (strStartsWith t pfx && claimTitleMatches a y t) = false := by
          rw [claimTitleMatches_eq, hr]
          simp
        simp only [List.find?, hpredv]
        simp only [findSheetLoop, if_pos hp, hr]
        exact ih
      | some q =>
        obtain ⟨m1, d1, m2, d2⟩ := q
        by_cases hy : (([0, -1, 1] : List Int).any
            (fun off => rangeMatchesYear a (y + off) m1 d1 m2 d2)) = true
        · have hpredv : (strStartsWith t pfx && claimTitleMatches a y t) = true := by
            rw [Bool.and_eq_true]
            exact ⟨hp, by rw [claimTitleMatches_eq, hr]; exact hy⟩
          simp only [List.find?, hpredv]
          simp only [findSheetLoop, if_pos hp, hr, if_pos hy]
        · rw [Bool.not_eq_true] at hy
          have hpredv : (strStartsWith t pfx && claimTitleMatches a y t) = false := by
            rw [claimTitleMatches_eq, hr]
            show (strStartsWith t pfx && ([0, -1, 1] : List Int).any
              (fun off => rangeMatchesYear a (y + off) m1 d1 m2 d2)) = false
            rw [hy, Bool.and_false]
          simp only [List.find?, hpredv]
          simp only [findSheetLoop, if_pos hp, hr, hy, Bool.false_eq_true, if_false]
          exact ih
    · rw [Bool.not_eq_true] at hp
      have hpredv : (strStartsWith t pfx && claimTitleMatches a y t) = false := by
        rw [hp, Bool.false_and]
      simp only [List.find?, hpredv]
      simp only [findSheetLoop, hp, Bool.false_eq_true, if_false]
      exact ih

/-- C3: the selector returns the first prefixed title (in list order) whose
embedded `M/D - M/D` range contains the start-of-day of the target date for
some candidate year in {Y, Y-1, Y+1}, with the end bound rolled into the
next year when start-month > end-month; with no matching candidate it falls
back to the first prefixed title; with no prefixed title it returns no
selection and the query fails.  The last conjunct is the spec's example:
titles `Schedule 12/30 - 1/5`, `Schedule 1/6 - 1/12` with target 2024-01-02
select the first title. -/
theorem findSheetNameForDate_selection (pfx : String) (d : JsDate)
    (sheets : List String) (timeSlots : List (String × String))
    (grid : List (List CellValue)) (so ro : FetchOutcome (List (List String))) :
    ((findSheetNameForDate pfx d sheets).2 =
      claimSheetSelection pfx (jsDateAbs (setHours0 d)) ((setHours0 d).year : Int) sheets) ∧
    ((∀ t ∈ sheets, strStartsWith t pfx = false) →
      (findSheetNameForDate pfx d sheets).2 = none ∧
      (fetchSheetDataFull pfx timeSlots d ⟨sheets, grid, so, ro⟩).2 = none) ∧
    (findSheetNameForDate ("Schedule") ⟨2024, 1, 2, 0, 0, 0, 0⟩
        [("Schedule 12/30 - 1/5"), ("Schedule 1/6 - 1/12")]).2 =
      some ("Schedule 12/30 - 1/5") := by
  refine ⟨?_, ?_, by decide⟩
  · simp only [findSheetNameForDate, claimSheetSelection, findSheetLoop_eq]
    cases List.find? (fun t => strStartsWith t pfx &&
      claimTitleMatches (jsDateAbs (setHours0 d)) ((setHours0 d).year : Int) t) sheets <;> rfl
  · intro hnp
    have hB : sheets.find? (fun t => strStartsWith t pfx && claimTitleMatches
        (jsDateAbs (setHours0 d)) ((setHours0 d).year : Int) t) = none := by
      rw [List.find?_eq_none]
      intro t ht
      simp [hnp t ht]
    have hA : sheets.find? (fun t => strStartsWith t pfx) = none := by
      rw [List.find?_eq_none]
      intro t ht
      simp [hnp t ht]
    constructor
    · simp only [findSheetNameForDate, findSheetLoop_eq, hB, hA]
    · simp only [fetchSheetDataFull, findSheetNameForDate, findSheetLoop_eq, hB, hA]

/-- C3 witness: a sheet list with no prefixed title yields no selection and
the query fails. -/
theorem findSheetNameForDate_selection_witness :
    (findSheetNameForDate ("Schedule") ⟨2024, 3, 20, 0, 0, 0, 0⟩ [("Other")]).2 = none :=
  ((findSheetNameForDate_selection ("Schedule") ⟨2024, 3, 20, 0, 0, 0, 0⟩ [("Other")]
      [] [] FetchOutcome.transportError FetchOutcome.transportError).2.1
    (by decide)).1

/-! ### C5: the skill-column window -/

/-- Claim-side skill extraction: walk the headers with their absolute column
index `i`, and treat column `i` as a skill column exactly when
`1 ≤ i < cut`, storing the value of the row's cell at column `i` when it
parses as a number. -/
def claimSkillsGo (row : List String) (cut : Nat) :
    Nat → List String → List (String × Int) → List (String × Int)
  | _, [], acc => acc
  | i, h :: rest, acc =>
    claimSkillsGo row cut (i + 1) rest
      (if 1 ≤ i ∧ i < cut then
        (match jsParseInt (rowGet row i) with
         | some v => recSet acc h v
         | none => acc)
       else acc)

/-- The skill-column bound of the amended claim: the zip column index `Z`
when `Z ≥ 1`; the full header width when `Z = 0` (a zip header in the name
column does not bound the skills) or when no header contains `zip`. -/
def claimCut (headers : List String) : Nat :=
  match headers.findIdx? (fun h => listHasSub (("zip").toList) (jsToLower h).toList) with
  | some z => if 1 ≤ z then z else headers.length
  | none => headers.length

/-- The amended claim's skill mapping for one row. -/
def claimSkillsAmended (headers row : List String) : List (String × Int) :=
  claimSkillsGo row (claimCut headers) 0 headers []

/-- The original claim's skill mapping for one row: with a zip column at
index `Z`, only the columns with indices strictly between 1 and `Z`
(that is, none when `Z = 0`); all columns after the name column when no
header contains `zip`. -/
def claimSkillsOriginal (headers row : List String) : List (String × Int) :=
  claimSkillsGo row
    (match headers.findIdx? (fun h => listHasSub (("zip").toList) (jsToLower h).toList) with
     | some z => z
     | none => headers.length) 0 headers []

/-- The loader applied to the amended claim's per-row functions. -/
def claimParseSkills (values : List (List String)) : List (String × SkillRec) :=
  if values.length < 2 then []
  else
    values.tail.foldl (fun acc row =>
      if rowGet row 0 = ("") then acc
      else recSet acc (normalizeName (rowGet row 0))
        ⟨claimSkillsAmended ((values.headD []).map jsTrim) row,
         rowZips (findZipIdx ((values.headD []).map jsTrim)) row⟩) []

theorem claimSkillsGo_out (row : List String) (cut : Nat) :
    ∀ (hs : List String) (i : Nat) (acc : List (String × Int)), cut ≤ i →
      claimSkillsGo row cut i hs acc = acc := by
  intro hs
  induction hs with
  | nil => intro i acc _; rfl
  | cons h t ih =>
    intro i acc hle
    simp only [claimSkillsGo]
    rw [if_neg (by omega : ¬ (1 ≤ i ∧ i < cut))]
    exact ih (i + 1) acc (by omega)

theorem rowSkillsGo_eq_claim (row : List String) (cut : Nat) :
    ∀ (tail : List String) (j : Nat) (acc : List (String × Int)),
      rowSkillsGo row j (tail.take (cut - 1 - j)) acc =
        claimSkillsGo row cut (j + 1) tail acc := by
  intro tail
  induction tail with
  | nil =>
    intro j acc
    simp [rowSkillsGo, claimSkillsGo]
  | cons h t ih =>
    intro j acc
    by_cases hj : j + 1 < cut
    · have htake : (h :: t).take (cut - 1 - j) = h :: t.take (cut - 1 - (j + 1)) := by
        have harith : cut - 1 - j = (cut - 1 - (j + 1)) + 1 := by omega
        rw [harith, List.take_succ_cons]
      rw [htake]
      simp only [rowSkillsGo, claimSkillsGo]
      rw [if_pos ⟨by omega, hj⟩]
      cases hp : jsParseInt (rowGet row (j + 1)) with
      | some v => exact ih (j + 1) (recSet acc h v)
      | none => exact ih (j + 1) acc
    · have htake : cut - 1 - j = 0 := by omega
      rw [htake]
      simp only [List.take_zero, rowSkillsGo, claimSkillsGo]
      rw [if_neg (by omega : ¬ (1 ≤ j + 1 ∧ j + 1 < cut))]
      exact (claimSkillsGo_out row cut t (j + 2) acc (by omega)).symm

theorem rowSkills_go_top (row : List String) (cut : Nat) (h0 : String)
    (tail : List String) :
    rowSkillsGo row 0 (tail.take (cut - 1)) [] =
      claimSkillsGo row cut 0 (h0 :: tail) [] := by
  have hstep : claimSkillsGo row cut 0 (h0 :: tail) ([] : List (String × Int)) =
      claimSkillsGo row cut 1 tail [] := by
    simp only [claimSkillsGo]
    rw [if_neg (by omega : ¬ (1 ≤ 0 ∧ 0 < cut))]
  rw [hstep]
  have h := rowSkillsGo_eq_claim row cut tail 0 []
  simpa using h

theorem rowSkills_eq_claim (headers row : List String) :
    rowSkills headers (findZipIdx headers) row = claimSkillsAmended headers row := by
  cases headers with
  | nil => rfl
  | cons h0 tail =>
    cases hz : (h0 :: tail).findIdx?
        (fun h => listHasSub (("zip").toList) (jsToLower h).toList) with
    | some z =>
      have hfz : findZipIdx (h0 :: tail) = (z : Int) := by
        simp only [findZipIdx, hz]
      have hcut : claimCut (h0 :: tail) = if 1 ≤ z then z else (h0 :: tail).length := by
        simp only [claimCut, hz]
      by_cases h1 : 1 ≤ z
      · have hpos : (0 : Int) < (z : Int) := by exact_mod_cast h1
        rw [hfz]
        simp only [rowSkills, if_pos hpos, Int.toNat_natCast, claimSkillsAmended, hcut,
          if_pos h1, List.drop_one, List.tail_cons]
        exact rowSkills_go_top row z h0 tail
      · have hnpos : ¬ ((0 : Int) < (z : Int)) := by
          intro hc
          exact h1 (by exact_mod_cast hc)
        rw [hfz]
        simp only [rowSkills, if_neg hnpos, claimSkillsAmended, hcut, if_neg h1,
          List.drop_one, List.tail_cons]
        exact rowSkills_go_top row (h0 :: tail).length h0 tail
    | none =>
      have hfz : findZipIdx (h0 :: tail) = -1 := by
        simp only [findZipIdx, hz]
      have hcut : claimCut (h0 :: tail) = (h0 :: tail).length := by
        simp only [claimCut, hz]
      have hnpos : ¬ ((0 : Int) < (-1 : Int)) := by decide
      rw [hfz]
      simp only [rowSkills, if_neg hnpos, claimSkillsAmended, hcut,
        List.drop_one, List.tail_cons]
      exact rowSkills_go_top row (h0 :: tail).length h0 tail

theorem foldl_congr_fun {α β : Type} (f g : α → β → α) (h : ∀ a b, f a b = g a b) :
    ∀ (l : List β) (a : α), l.foldl f a = l.foldl g a := by
  intro l
  induction l with
  | nil => intro a; rfl
  | cons b t ih =>
    intro a
    rw [List.foldl_cons, List.foldl_cons, h, ih]

/-- C5 counterexample: with the header row `["zip", "A"]` the zip column
index is 0, so the original claim mandates no skill columns at all
(no index lies strictly between 1 and 0), yet the loader stores the parsed
skill `A = 5` (it treats every column after the name column as a skill) and
reads the zip codes from the name column. -/
theorem skills_zip_first_column_cex :
    claimSkillsOriginal [("zip"), ("A")] [("bob"), ("5")] = [] ∧
    parseSkillsValues [[("zip"), ("A")], [("bob"), ("5")]] =
      [(("bob"), ⟨[(("A"), 5)], [("bob")]⟩)] ∧
    (recGet? (parseSkillsValues [[("zip"), ("A")], [("bob"), ("5")]]) ("bob")).map
        SkillRec.skills ≠ some (claimSkillsOriginal [("zip"), ("A")] [("bob"), ("5")]) := by
  exact ⟨by decide, by decide, by decide⟩

/-- C5 (amended): the loader's per-row skill mapping equals the claim-side
mapping that treats as skill columns the indices `1 ≤ i < Z` when the zip
header index `Z` is at least 1, and every index `≥ 1` when `Z = 0` or no
header contains `zip` (non-numeric cells omitted); and when no header
contains `zip` the zip index is `-1` and every row's zip-code list is
empty. -/
theorem parseSkills_amended :
    (∀ values, parseSkillsValues values = claimParseSkills values) ∧
    (∀ headers row, rowSkills headers (findZipIdx headers) row =
      claimSkillsAmended headers row) ∧
    (∀ row, rowZips (-1) row = []) ∧
    (∀ headers, headers.findIdx?
        (fun h => listHasSub (("zip").toList) (jsToLower h).toList) = none →
      findZipIdx headers = -1) := by
  refine ⟨?_, rowSkills_eq_claim, fun row => rfl, ?_⟩
  · intro values
    simp only [parseSkillsValues, claimParseSkills]
    by_cases hlen : values.length < 2
    · rw [if_pos hlen, if_pos hlen]
    · rw [if_neg hlen, if_neg hlen]
      refine foldl_congr_fun _ _ (fun acc row => ?_) values.tail []
      by_cases hname : rowGet row 0 = ("")
      · rw [if_pos hname, if_pos hname]
      · rw [if_neg hname, if_neg hname, rowSkills_eq_claim]
  · intro headers hz
    simp only [findZipIdx, hz]

/-- C5 witness: a header row without a zip column yields zip index `-1`. -/
theorem parseSkills_amended_witness :
    findZipIdx [("Name"), ("A")] = -1 :=
  parseSkills_amended.2.2.2 [("Name"), ("A")] (by decide)

end Scheduler
